import Mathlib

/-!
Verification development for the briklab-stdlib core: the structural type
matcher (`src/jstc/index.ts`, `JSTypeChecker`) and the CLI registry with its
tokenizer and dispatch (`cli-john`, the current revision).

The definitions below are shallow embeddings translated from the TypeScript
source.  JavaScript runtime values are modelled by `JSValue`; the matcher's
handler table is a function from names to optional predicates; the CLI
registry state carries the command list, the subscriber lists, and counters
for the warner collaborator (warn calls and flush calls).
-/

/-- Model of a JavaScript runtime value, carrying exactly the observations the
embedded code makes: `typeof`, `instanceof` (via a list of class names the
value is an instance of), `Array.isArray`, array elements, and the string
payload of string values.  Objects in this model carry no enumerable own
fields (their JSON encoding is the empty object). -/
inductive JSValue where
  | str (s : String)
  | num (n : Int)
  | bool (b : Bool)
  | undef
  | jsNull
  | object (classes : List String)
  | array (elems : List JSValue)
  | func (classes : List String)

/-- `typeof` on a modelled value (note `typeof null === "object"`). -/
def jsTypeof : JSValue → String
  | .str _ => "string"
  | .num _ => "number"
  | .bool _ => "boolean"
  | .undef => "undefined"
  | .jsNull => "object"
  | .object _ => "object"
  | .array _ => "object"
  | .func _ => "function"

/-- `value instanceof C` for a constructor named `c`: only objects and
functions sit on a prototype chain in this model; arrays are instances of
`Array`. -/
def jsInstanceOf (v : JSValue) (c : String) : Bool :=
  match v with
  | .object cs => cs.contains c
  | .func cs => cs.contains c
  | .array _ => c == "Array"
  | _ => false

/-- JSON string encoding used by `JSON.stringify` on strings; escaping is not
modelled (no claim depends on escape sequences), only the surrounding
quotes. -/
def jsonQuote (s : String) : String := "\"" ++ s ++ "\""

mutual

/-- Model of `JSON.stringify`: returns `none` exactly when the JavaScript
builtin returns the value `undefined` (for `undefined` and functions).
Array holes serialize `undefined` elements as `null`. -/
def jsonStringify : JSValue → Option String
  | .str s => some (jsonQuote s)
  | .num n => some (toString n)
  | .bool b => some (if b then "true" else "false")
  | .undef => none
  | .jsNull => some "null"
  | .object _ => some "\x7b\x7d"
  | .array es => some ("[" ++ jsonElems es ++ "]")
  | .func _ => none

/-- Comma-separated JSON encodings of array elements. -/
def jsonElems : List JSValue → String
  | [] => ""
  | [e] => (jsonStringify e).getD "null"
  | e :: rest => (jsonStringify e).getD "null" ++ "," ++ jsonElems rest

end

/-- `s.startsWith("--")` from the tokenizer, expressed on the character
list. -/
def startsDashDash (s : String) : Bool :=
  match s.data with
  | '-' :: '-' :: _ => true
  | _ => false

/-- `name.includes(" ")` from the registration validators. -/
def containsSpace (s : String) : Bool := s.data.contains ' '

/-- JavaScript `String.prototype.replace` with a plain-string pattern removes
only the first occurrence; this is `name.replace(" ", "")` on the character
list. -/
def removeFirstSpace : List Char → List Char
  | [] => []
  | c :: rest => if c = ' ' then rest else c :: removeFirstSpace rest

/-- `name.replace(" ", "")` on strings. -/
def removeFirstSpaceStr (s : String) : String := String.mk (removeFirstSpace s.data)

/-- `s.split("|")` on the character list: splits at every pipe, keeping empty
fragments, as the JavaScript single-character split does. -/
def splitPipe : List Char → List (List Char)
  | [] => [[]]
  | c :: rest =>
    if c = '|' then [] :: splitPipe rest
    else
      match splitPipe rest with
      | [] => [[c]]
      | h :: t => (c :: h) :: t

/-- `s.split("|")` on strings, as used by `JSTypeChecker.for().check`. -/
def jsSplit (s : String) : List String := (splitPipe s.data).map String.mk

/-- The matcher's custom-handler table `#__CustomHandler`: a record mapping
names to one-argument boolean predicates. -/
def HandlerTable : Type := String → Option (JSValue → Bool)

/-- Property assignment `table[name] = handler`. -/
def updateTable (H : HandlerTable) (name : String) (h : JSValue → Bool) : HandlerTable :=
  fun k => if k = name then some h else H k

/-- The seeded handlers: `Array` is `Array.isArray`, `string[]` is
`Array.isArray(v) && v.every(typeof === "string")`. -/
def initHandlers : HandlerTable :=
  fun k =>
    if k = "Array" then
      some (fun v => match v with | .array _ => true | _ => false)
    else if k = "string[]" then
      some (fun v =>
        match v with
        | .array es => es.all (fun e => jsTypeof e == "string")
        | _ => false)
    else none

/-- A type specification element: either a string spec (primitive tag,
handler name, or pipe union) or a constructor reference (modelled by the
constructor's class name, compared via `instanceof`). -/
inductive JSType where
  | strSpec (s : String)
  | ctorSpec (c : String)
deriving DecidableEq

/-- `JSTypeOrArray`: a bare spec or a list of specs (list = union). -/
inductive JSTypeOrArray where
  | single (t : JSType)
  | many (ts : List JSType)
deriving DecidableEq

/-- `Array.isArray(expected) ? expected : [expected]`. -/
def toSpecList : JSTypeOrArray → List JSType
  | .single t => [t]
  | .many ts => ts

/-- One union fragment `t` (a string after the split): if a custom handler is
registered under `t` it is invoked with the value, otherwise
`typeof value === t` decides. -/
def evalFrag (H : HandlerTable) (v : JSValue) (t : String) : Bool :=
  match H t with
  | some h => h v
  | none => jsTypeof v == t

/-- One element `tRaw` of the normalized spec list: a constructor is matched
via `instanceof`; a string is split on `|` and its fragments are tried left
to right. -/
def evalSpecElem (H : HandlerTable) (v : JSValue) (tRaw : JSType) : Bool :=
  match tRaw with
  | .ctorSpec c => jsInstanceOf v c
  | .strSpec s => (jsSplit s).any (fun frag => evalFrag H v frag)

/-- A whole positional spec: the normalized list is evaluated left to right,
first match wins. -/
def evalSpec (H : HandlerTable) (v : JSValue) (spec : JSTypeOrArray) : Bool :=
  (toSpecList spec).any (fun t => evalSpecElem H v t)

/-- `JSTypeChecker.for(args).check(types)`: fails immediately if there are
fewer values than specs; otherwise every position must match. -/
def check (H : HandlerTable) (args : List JSValue) (types : List JSTypeOrArray) : Bool :=
  if args.length < types.length then false
  else (types.zip args).all (fun p => evalSpec H p.2 p.1)

/-- Instance state of `JSTypeChecker`: the handler table, the protection
level, and the freeze flag.  `frozenHandlers` models both the `#frozenHandlers`
field and the `Object.freeze` applied to the handler record: the source sets
both together, and a property assignment on the frozen record throws a
`TypeError` in strict mode. -/
structure JSTCState where
  handlers : HandlerTable
  protectionLevel : String
  frozenHandlers : Bool

/-- The four recognised protection levels. -/
def jstcLevels : List String := ["none", "boundary", "sandbox", "hardened"]

/-- `JSTypeChecker.setProtectionLevel`: unknown levels are ignored; moving to
`sandbox` or `hardened` freezes the handler table; nothing ever clears the
freeze flag. -/
def setProtectionLevel (s : JSTCState) (level : String) : JSTCState :=
  if jstcLevels.contains level then
    { s with
      protectionLevel := level,
      frozenHandlers := s.frozenHandlers || (level == "sandbox" || level == "hardened") }
  else s

/-- `JSTypeChecker.addCustomHandler`.  The result is `Except.error ()` when
the call throws (the hardened guard, the boundary/hardened invalid-argument
error, or the strict-mode `TypeError` from assigning to the frozen handler
record), and otherwise the updated state together with the number of warnings
emitted.  A non-function handler argument is modelled by `none`; an invalid
argument pair falls back to `JSON.stringify(name)` as the key (a `undefined`
stringify result is coerced to the property key `"undefined"`) and an
always-false predicate. -/
def addCustomHandler (s : JSTCState) (name : JSValue) (handler : Option (JSValue → Bool)) :
    Except Unit (JSTCState × Nat) :=
  if s.protectionLevel == "sandbox" && s.frozenHandlers then
    Except.ok (s, 1)
  else if s.protectionLevel == "hardened" && s.frozenHandlers then
    Except.error ()
  else
    match name, handler with
    | .str n, some h =>
      if s.frozenHandlers then Except.error ()
      else Except.ok ({ s with handlers := updateTable s.handlers n h }, 0)
    | nm, _ =>
      if s.protectionLevel == "boundary" || s.protectionLevel == "hardened" then
        Except.error ()
      else
        let w : Nat := if s.protectionLevel == "none" then 0 else 1
        let key := (jsonStringify nm).getD "undefined"
        if s.frozenHandlers then Except.error ()
        else Except.ok ({ s with handlers := updateTable s.handlers key (fun _ => false) }, w)

/-- A fresh `JSTypeChecker` instance: seeded handlers, level `boundary`,
unfrozen. -/
def jstcInit : JSTCState :=
  { handlers := initHandlers, protectionLevel := "boundary", frozenHandlers := false }

/-- One parsed option entry `{option, arguments}` produced by the
tokenizer. -/
structure OptionEntry where
  option : String
  arguments : List String
deriving DecidableEq

/-- A subscriber callback, abstracted by its observable effect on the
registry: do nothing, register a further Registry-level subscriber
(`cli.on("command", ...)`), or register a further Command-level subscriber
(`cmd.on("command", ...)` on the command with the given name). -/
inductive CB where
  | noop
  | addRegSub (cb : CB)
  | addCmdSub (cmdName : String) (cb : CB)
deriving DecidableEq

/-- A registered `CLI.Command`: its name and its `#onCmdFunctions`
subscriber list.  (Options carry no dispatch behavior and are modelled
separately for the registration claims.) -/
structure Cmd where
  name : String
  subs : List CB
deriving DecidableEq

/-- A registered `CLI.Command.Option` node. -/
structure OptionNode where
  name : String
deriving DecidableEq

/-- Registry state: the command list, the Registry-level subscriber list,
and counters for the warner collaborator (number of `warn` calls and number
of `flush` calls observed). -/
structure CLIState where
  commands : List Cmd
  regSubs : List CB
  warnCount : Nat
  flushCount : Nat
deriving DecidableEq

/-- Inner tokenizer loop: the values collected for one option are the tokens
following it up to the next `--`-prefixed token. -/
def collectValues : List String → List String
  | [] => []
  | t :: ts => if startsDashDash t then [] else t :: collectValues ts

/-- Outer tokenizer loop over the option region: every index is visited;
non-`--` tokens are skipped, and each `--`-prefixed token emits an entry
whose arguments come from `collectValues` on the remaining tokens. -/
def scanOptions : List String → List OptionEntry
  | [] => []
  | t :: ts =>
    if startsDashDash t then { option := t, arguments := collectValues ts } :: scanOptions ts
    else scanOptions ts

/-- Successful parse result of `#figureOutCommand`: the command name, the
command arguments, the option entries, and the matched command's metadata
snapshot of its subscriber list (the source copies `[...#onCmdFunctions]`
into `metadata()` at parse time). -/
structure ParseOk where
  commandName : String
  commandArgs : List String
  options : List OptionEntry
  snapshot : List CB
deriving DecidableEq

/-- `CLI.#figureOutCommand` on the token list (the host argument vector with
the first two entries already dropped): empty input or an unregistered first
token fails; otherwise command arguments are taken until the first
`--`-prefixed token and the leftover forms the option region. -/
def figureOutCommand (tokens : List String) (cmds : List Cmd) : Option ParseOk :=
  match tokens with
  | [] => none
  | c0 :: rest =>
    match cmds.find? (fun a => a.name == c0) with
    | none => none
    | some cmd =>
      let commandArgs := rest.takeWhile (fun a => !startsDashDash a)
      let leftover := rest.drop commandArgs.length
      some { commandName := c0
             commandArgs := commandArgs
             options := scanOptions leftover
             snapshot := cmd.subs }

/-- Effect of invoking one subscriber callback on the registry state.
`on("command", f)` appends to the relevant live subscriber list. -/
def applyCB (cb : CB) (s : CLIState) : CLIState :=
  match cb with
  | .noop => s
  | .addRegSub c => { s with regSubs := s.regSubs ++ [c] }
  | .addCmdSub n c =>
    { s with
      commands := s.commands.map (fun cmd =>
        if cmd.name == n then { cmd with subs := cmd.subs ++ [c] } else cmd) }

/-- The entries a callback appends to the Registry-level subscriber array
(the array the Registry-level dispatch loop is iterating). -/
def regNew : CB → List CB
  | .addRegSub c => [c]
  | _ => []

/-- Termination weight of a callback for the live Registry-level loop. -/
def cbWeight : CB → Nat
  | .noop => 1
  | .addRegSub c => cbWeight c + 2
  | .addCmdSub _ _ => 1

/-- Total weight of the pending queue. -/
def pendingWeight (l : List CB) : Nat := (l.map cbWeight).sum

/-- The Registry-level dispatch loop of `run()`:
`for (i = 0; i < this.#onCmdFunctions.length; i++) this.#onCmdFunctions[i](...)`.
The loop reads the live array; since the only mutation callbacks can perform
on it is `push` (append), the loop is equivalently a queue of pending
callbacks that grows at the end whenever an invoked callback registers a
Registry-level subscriber.  Returns the final state and the invocation log. -/
def regLoop (s : CLIState) (pending : List CB) (log : List CB) : CLIState × List CB :=
  match pending with
  | [] => (s, log)
  | cb :: rest => regLoop (applyCB cb s) (rest ++ regNew cb) (log ++ [cb])
termination_by pendingWeight pending
decreasing_by
  simp only [pendingWeight, List.map_append, List.sum_append, List.map_cons, List.sum_cons]
  cases cb <;> simp [regNew, cbWeight]
  omega

/-- The Command-level dispatch loop of `run()`: it iterates the metadata
snapshot (a fixed list), not the live command subscriber array. -/
def cmdLoop (s : CLIState) (snapshot : List CB) (log : List CB) : CLIState × List CB :=
  match snapshot with
  | [] => (s, log)
  | cb :: rest => cmdLoop (applyCB cb s) rest (log ++ [cb])

/-- `CLI.run()`: drop the first two argv entries, tokenize, return silently
on failure; on success invoke the Registry-level subscribers (live list),
then the matched command's snapshot subscribers, then call
`cliWarner.flush()` once.  Returns the final state and the ordered log of
invoked callbacks. -/
def run (argv : List String) (s : CLIState) : CLIState × List CB :=
  match figureOutCommand (argv.drop 2) s.commands with
  | none => (s, [])
  | some r =>
    let p1 := regLoop s s.regSubs []
    let p2 := cmdLoop p1.1 r.snapshot p1.2
    ({ p2.1 with flushCount := p2.1.flushCount + 1 }, p2.2)

/-- Name validation shared by `CLI.command` and `CLI.Command.option`: a
non-string argument warns and falls back to `JSON.stringify(name)`.  The
fallback may be the value `undefined`, in which case the subsequent
`name.includes(" ")` throws a `TypeError` (`Except.error`).  A name
containing a space warns and has its first space removed
(`name.replace(" ", "")`).  Returns the final name and the number of warn
calls. -/
def normalizeName (arg : JSValue) : Except Unit (String × Nat) :=
  let fb : Option String × Nat :=
    match arg with
    | .str s => (some s, 0)
    | v => (jsonStringify v, 1)
  match fb with
  | (none, _) => Except.error ()
  | (some n, w) =>
    if containsSpace n then Except.ok (removeFirstSpaceStr n, w + 1)
    else Except.ok (n, w)

/-- Replace-or-append on the command list: `findIndex` on the name followed
by assignment at the index on a hit, `push` on a miss (expressed as
first-match replacement). -/
def upsertCmd : List Cmd → Cmd → List Cmd
  | [], c => [c]
  | a :: rest, c => if a.name == c.name then c :: rest else a :: upsertCmd rest c

/-- Replace-or-append on a command's option list. -/
def upsertOpt : List OptionNode → OptionNode → List OptionNode
  | [], o => [o]
  | a :: rest, o => if a.name == o.name then o :: rest else a :: upsertOpt rest o

/-- `CLI.command(name)`: validate/normalize the name, construct a fresh
`Command` (with an empty subscriber list, discarding any replaced command's
subscribers), and replace-or-append it.  Returns the new list, the new
command, and the warn-call count. -/
def cliCommand (cmds : List Cmd) (arg : JSValue) : Except Unit (List Cmd × Cmd × Nat) :=
  match normalizeName arg with
  | Except.error _ => Except.error ()
  | Except.ok (n, w) =>
    let c : Cmd := { name := n, subs := [] }
    Except.ok (upsertCmd cmds c, c, w)

/-- `CLI.Command.option(name)`: same validation and replace-or-append
semantics on the owning command's option list. -/
def commandOption (opts : List OptionNode) (arg : JSValue) :
    Except Unit (List OptionNode × OptionNode × Nat) :=
  match normalizeName arg with
  | Except.error _ => Except.error ()
  | Except.ok (n, w) =>
    let o : OptionNode := { name := n }
    Except.ok (upsertOpt opts o, o, w)

/-- `splitPipe` never returns the empty list of fragments. -/
theorem splitPipe_ne_nil (cs : List Char) : splitPipe cs ≠ [] := by
  match cs with
  | [] => simp [splitPipe]
  | c :: rest =>
    simp only [splitPipe]
    split
    · simp
    · split <;> simp

/-- Splitting on `|` distributes over concatenation at a pipe: the fragments
of `xs ++ "|" ++ ys` are the fragments of `xs` followed by those of `ys`. -/
theorem splitPipe_append_pipe (xs ys : List Char) :
    splitPipe (xs ++ '|' :: ys) = splitPipe xs ++ splitPipe ys := by
  induction xs with
  | nil => simp [splitPipe]
  | cons c xs ih =>
    simp only [List.cons_append, splitPipe]
    by_cases hc : c = '|'
    · simp [hc, ih]
    · simp only [hc, if_false]
      rcases h : splitPipe xs with _ | ⟨h1, t1⟩
      · exact absurd h (splitPipe_ne_nil xs)
      · simp only [List.append_eq]
        rw [ih, h]
        simp

/-- No fragment produced by `splitPipe` contains a pipe character. -/
theorem splitPipe_no_pipe (cs : List Char) (frag : List Char)
    (hmem : frag ∈ splitPipe cs) : '|' ∉ frag := by
  induction cs generalizing frag with
  | nil =>
    simp [splitPipe] at hmem
    simp [hmem]
  | cons c rest ih =>
    simp only [splitPipe] at hmem
    by_cases hc : c = '|'
    · simp only [hc, if_true] at hmem
      rcases List.mem_cons.mp hmem with h | h
      · simp [h]
      · exact ih frag h
    · simp only [hc, if_false] at hmem
      rcases h : splitPipe rest with _ | ⟨h1, t1⟩
      · exact absurd h (splitPipe_ne_nil rest)
      · rw [h] at hmem
        rcases List.mem_cons.mp hmem with hh | hh
        · subst hh
          intro hmem2
          rcases List.mem_cons.mp hmem2 with h2 | h2
          · exact hc h2.symm
          · have : h1 ∈ splitPipe rest := by rw [h]; exact List.mem_cons_self _ _
            exact ih h1 this h2
        · exact ih frag (by rw [h]; exact List.mem_cons_of_mem _ hh)

/-- The JavaScript split of `a ++ "|" ++ b` yields the fragments of `a`
followed by those of `b`. -/
theorem jsSplit_union (a b : String) : jsSplit (a ++ "|" ++ b) = jsSplit a ++ jsSplit b := by
  unfold jsSplit
  have hdata : (a ++ "|" ++ b).data = a.data ++ '|' :: b.data := by
    simp [String.data_append]
  rw [hdata, splitPipe_append_pipe, List.map_append]

/-- `check` on a single value against a single string spec reduces to trying
each pipe fragment. -/
theorem check_single_str (H : HandlerTable) (x : JSValue) (u : String) :
    check H [x] [JSTypeOrArray.single (JSType.strSpec u)] =
      (jsSplit u).any (fun frag => evalFrag H x frag) := by
  simp [check, evalSpec, evalSpecElem, toSpecList]

/-- Pointwise-equal predicates on the members of a list give equal `any`. -/
theorem list_any_congr {α : Type} (l : List α) (f g : α → Bool)
    (h : ∀ a ∈ l, f a = g a) : l.any f = l.any g := by
  induction l with
  | nil => rfl
  | cons a rest ih =>
    simp only [List.any_cons]
    rw [h a (List.mem_cons_self _ _), ih (fun b hb => h b (List.mem_cons_of_mem _ hb))]

/-- `zip` ignores the second list beyond the length of the first. -/
theorem zip_take_length {α β : Type} (ts : List α) (vs : List β) :
    ts.zip (vs.take ts.length) = ts.zip vs := by
  induction ts generalizing vs with
  | nil => simp
  | cons t ts ih =>
    cases vs with
    | nil => simp
    | cons v vs => simp [List.zip_cons_cons, ih]

/-- C2: for every value `x` and all strings `a`, `b`, matching `[x]` against
the union spec `a|b` succeeds exactly when matching against `a` or against
`b` succeeds: the string spec is split on the pipe and the fragments are
tried left to right with short-circuit, so union evaluation distributes over
the branches. -/
theorem jstc_union_distributes (H : HandlerTable) (x : JSValue) (a b : String) :
    check H [x] [JSTypeOrArray.single (JSType.strSpec (a ++ "|" ++ b))] =
      (check H [x] [JSTypeOrArray.single (JSType.strSpec a)]
        || check H [x] [JSTypeOrArray.single (JSType.strSpec b)]) := by
  rw [check_single_str, check_single_str, check_single_str, jsSplit_union, List.any_append]

/-- C6: `check` returns false whenever there are fewer values than specs,
and the result depends only on the first `specs.length` values (excess
values are ignored, not an error). -/
theorem check_length_and_excess (H : HandlerTable) (vs : List JSValue)
    (ts : List JSTypeOrArray) :
    (vs.length < ts.length → check H vs ts = false) ∧
      check H vs ts = check H (vs.take ts.length) ts := by
  constructor
  · intro h
    simp [check, h]
  · by_cases h : vs.length < ts.length
    · have h2 : (vs.take ts.length).length < ts.length := by
        simp only [List.length_take]
        omega
      simp [check, h, h2]
    · have h2 : ¬ (vs.take ts.length).length < ts.length := by
        simp only [List.length_take]
        omega
      simp only [check, if_neg h, if_neg h2]
      rw [zip_take_length]

/-- Witness for C6 at concrete inputs: one value too few fails, and a
trailing excess value does not change the verdict. -/
theorem check_length_and_excess_witness :
    check initHandlers [] [JSTypeOrArray.single (JSType.strSpec "string")] = false ∧
      check initHandlers [JSValue.str "a", JSValue.num 1]
          [JSTypeOrArray.single (JSType.strSpec "string")] =
        check initHandlers [JSValue.str "a"] [JSTypeOrArray.single (JSType.strSpec "string")] :=
  ⟨(check_length_and_excess initHandlers []
      [JSTypeOrArray.single (JSType.strSpec "string")]).1 (by decide),
   by
    have h := (check_length_and_excess initHandlers [JSValue.str "a", JSValue.num 1]
      [JSTypeOrArray.single (JSType.strSpec "string")]).2
    simpa using h⟩

/-- C10: a custom handler registered under a name containing `|` is never
consulted by a match whose string spec is exactly that name: the spec is
split on `|` before the handler table is looked up, every fragment is
pipe-free and is therefore a different key, so installing (or changing) the
handler at that name leaves the result of the match unchanged. -/
theorem handler_pipe_name_unreachable (H : HandlerTable) (name : String)
    (h : JSValue → Bool) (x : JSValue) (hp : '|' ∈ name.data) :
    check (updateTable H name h) [x] [JSTypeOrArray.single (JSType.strSpec name)] =
      check H [x] [JSTypeOrArray.single (JSType.strSpec name)] := by
  rw [check_single_str, check_single_str]
  apply list_any_congr
  intro frag hfrag
  rcases List.mem_map.mp hfrag with ⟨l, hl, rfl⟩
  have hnp : '|' ∉ l := splitPipe_no_pipe _ _ hl
  have hne : String.mk l ≠ name := by
    intro he
    apply hnp
    rw [← he] at hp
    exact hp
  unfold evalFrag updateTable
  rw [if_neg hne]

/-- Witness for C10: the seeded table extended with a handler named `a|b`
that accepts everything still rejects the number 0 against the spec
`"a|b"`, exactly as the unextended table does. -/
theorem handler_pipe_name_unreachable_witness :
    check (updateTable initHandlers "a|b" (fun _ => true)) [JSValue.num 0]
        [JSTypeOrArray.single (JSType.strSpec "a|b")] =
      check initHandlers [JSValue.num 0] [JSTypeOrArray.single (JSType.strSpec "a|b")] :=
  handler_pipe_name_unreachable initHandlers "a|b" (fun _ => true) (JSValue.num 0) (by decide)

/-- A fresh instance elevated to `hardened`. -/
def jstcHardened : JSTCState := setProtectionLevel jstcInit "hardened"

/-- The hardened instance subsequently lowered to `sandbox`
(`setProtectionLevel` accepts any of the four levels at any time). -/
def jstcHardenedThenSandbox : JSTCState := setProtectionLevel jstcHardened "sandbox"

/-- Once the handler table is frozen, `addCustomHandler` either throws or
returns with exactly one warning and a completely unchanged state (the
sandbox-guard early return). -/
theorem addCustomHandler_frozen (s : JSTCState) (hf : s.frozenHandlers = true)
    (name : JSValue) (handler : Option (JSValue → Bool)) :
    addCustomHandler s name handler = Except.error () ∨
      addCustomHandler s name handler = Except.ok (s, 1) := by
  unfold addCustomHandler
  rw [hf]
  simp only [Bool.and_true]
  by_cases hsb : (s.protectionLevel == "sandbox") = true
  · rw [if_pos hsb]
    exact Or.inr rfl
  · rw [if_neg hsb]
    by_cases hhd : (s.protectionLevel == "hardened") = true
    · rw [if_pos hhd]
      exact Or.inl rfl
    · rw [if_neg hhd]
      cases name with
      | str n =>
        cases handler with
        | some h => simp
        | none =>
          by_cases hbd : (s.protectionLevel == "boundary" || s.protectionLevel == "hardened") = true
          · simp [hbd]
          · simp [hbd]
      | _ =>
        cases handler <;>
          by_cases hbd : (s.protectionLevel == "boundary" || s.protectionLevel == "hardened") = true <;>
            simp [hbd]

/-- C3 counterexample: after `setProtectionLevel("hardened")`, a later
`setProtectionLevel("sandbox")` on the same instance makes the next
`addCustomHandler` call warn and return normally instead of raising — it
does not produce an error, contradicting the claim that every subsequent
`addCustomHandler` call on the instance raises. -/
theorem jstc_hardened_counterexample :
    addCustomHandler jstcHardenedThenSandbox (JSValue.str "extra") (some (fun _ => true)) =
      Except.ok (jstcHardenedThenSandbox, 1) ∧
    addCustomHandler jstcHardenedThenSandbox (JSValue.str "extra") (some (fun _ => true)) ≠
      Except.error () := by
  constructor
  · rfl
  · intro hcontra
    have hok : addCustomHandler jstcHardenedThenSandbox (JSValue.str "extra")
        (some (fun _ => true)) = Except.ok (jstcHardenedThenSandbox, 1) := rfl
    rw [hok] at hcontra
    exact Except.noConfusion hcontra

/-- C3 (amended): `setProtectionLevel("hardened")` freezes the handler
table; while the level remains `hardened`, `addCustomHandler` raises; every
`addCustomHandler` call on a frozen instance that does not raise leaves the
handler table and the freeze flag unchanged (so the table's observable
behavior never changes once frozen); and no later `setProtectionLevel` or
`addCustomHandler` call can clear the freeze — it is permanent for the
instance.  (If the level is later lowered to `sandbox`, the call warns and
no-ops instead of raising.) -/
theorem jstc_hardened_amended (s : JSTCState) (name : JSValue)
    (handler : Option (JSValue → Bool)) (lvl : String) :
    ((setProtectionLevel s "hardened").protectionLevel = "hardened" ∧
      (setProtectionLevel s "hardened").frozenHandlers = true) ∧
    (s.protectionLevel = "hardened" → s.frozenHandlers = true →
      addCustomHandler s name handler = Except.error ()) ∧
    (s.frozenHandlers = true → ∀ s' w, addCustomHandler s name handler = Except.ok (s', w) →
      s'.handlers = s.handlers ∧ s'.frozenHandlers = true) ∧
    (s.frozenHandlers = true → (setProtectionLevel s lvl).frozenHandlers = true) := by
  refine ⟨⟨?_, ?_⟩, ?_, ?_, ?_⟩
  · simp [setProtectionLevel, jstcLevels]
  · simp [setProtectionLevel, jstcLevels]
  · intro hl hf
    unfold addCustomHandler
    rw [hl, hf]
    simp
  · intro hf s' w heq
    rcases addCustomHandler_frozen s hf name handler with h | h
    · rw [h] at heq
      exact Except.noConfusion heq
    · rw [h] at heq
      injection heq with h2
      have h3 : s = s' := congrArg Prod.fst h2
      subst h3
      exact ⟨rfl, hf⟩
  · intro hf
    unfold setProtectionLevel
    split
    · simp [hf]
    · exact hf

/-- Witness for C3 (amended) at concrete inputs: hardening the fresh
instance freezes it; on the hardened instance registration raises; on the
hardened-then-sandbox instance the non-raising call leaves the table
unchanged; and lowering the level keeps the freeze. -/
theorem jstc_hardened_amended_witness :
    jstcHardened.protectionLevel = "hardened" ∧
    jstcHardened.frozenHandlers = true ∧
    addCustomHandler jstcHardened (JSValue.str "x") (some (fun _ => true)) =
      Except.error () ∧
    jstcHardenedThenSandbox.handlers = jstcHardenedThenSandbox.handlers ∧
    (setProtectionLevel jstcHardened "none").frozenHandlers = true :=
  ⟨(jstc_hardened_amended jstcInit (JSValue.str "x") (some (fun _ => true)) "none").1.1,
   (jstc_hardened_amended jstcInit (JSValue.str "x") (some (fun _ => true)) "none").1.2,
   (jstc_hardened_amended jstcHardened (JSValue.str "x") (some (fun _ => true)) "none").2.1
     (by rfl) (by rfl),
   ((jstc_hardened_amended jstcHardenedThenSandbox (JSValue.str "x") (some (fun _ => true))
       "none").2.2.1 (by rfl) jstcHardenedThenSandbox 1 (by rfl)).1,
   (jstc_hardened_amended jstcHardened (JSValue.str "x") (some (fun _ => true)) "none").2.2.2
     (by rfl)⟩

/-- Specification-side reading of the option region (from the spec's words,
for comparison with the source-translated `scanOptions`): each `--`-prefixed
token opens a new option entry named by the full token; subsequent tokens up
to the next `--`-prefixed token become the current entry's arguments. -/
def specRegionAux (cur : OptionEntry) : List String → List OptionEntry
  | [] => [cur]
  | t :: ts =>
    if startsDashDash t then cur :: specRegionAux { option := t, arguments := [] } ts
    else specRegionAux { option := cur.option, arguments := cur.arguments ++ [t] } ts

/-- Specification-side option region: tokens before the first `--`-prefixed
token are skipped (never captured); the first `--`-prefixed token opens the
first entry. -/
def specOptionRegion : List String → List OptionEntry
  | [] => []
  | t :: ts =>
    if startsDashDash t then specRegionAux { option := t, arguments := [] } ts
    else specOptionRegion ts

/-- The open-entry accumulator collects exactly the tokens up to the next
`--`-prefixed token, after which the scan continues as from scratch. -/
theorem specRegionAux_eq (ts : List String) : ∀ cur : OptionEntry,
    specRegionAux cur ts =
      { option := cur.option, arguments := cur.arguments ++ collectValues ts } ::
        scanOptions ts := by
  induction ts with
  | nil => intro cur; simp [specRegionAux, collectValues, scanOptions]
  | cons t ts ih =>
    intro cur
    by_cases hd : startsDashDash t = true
    · simp [specRegionAux, hd, collectValues, scanOptions, ih]
    · simp [specRegionAux, hd, collectValues, scanOptions, ih]

/-- The source's indexed option-region loop computes exactly the
specification-side option region. -/
theorem scanOptions_eq_spec (l : List String) : scanOptions l = specOptionRegion l := by
  induction l with
  | nil => rfl
  | cons t ts ih =>
    by_cases hd : startsDashDash t = true
    · simp [scanOptions, specOptionRegion, hd, specRegionAux_eq]
    · simp [scanOptions, specOptionRegion, hd, ih]

/-- Dropping as many elements as the `takeWhile` prefix is `dropWhile`. -/
theorem drop_length_takeWhile {α : Type} (p : α → Bool) (l : List α) :
    l.drop (l.takeWhile p).length = l.dropWhile p := by
  induction l with
  | nil => rfl
  | cons a l ih =>
    by_cases h : p a = true
    · simp [List.takeWhile_cons, List.dropWhile_cons, h, ih]
    · simp [List.takeWhile_cons, List.dropWhile_cons, h]

/-- C1: for every registered Command and every token sequence starting with
its name, the tokenizer appends the following tokens to `commandArgs` until
the first token beginning with `--`; that token and everything after form
the option region, in which each `--`-prefixed token opens a new option
entry (named by the full token, prefix included) whose arguments are the
following tokens up to the next `--`-prefixed token, in input order. -/
theorem figureOutCommand_option_region (cmds : List Cmd) (name : String)
    (rest : List String) (cmd : Cmd)
    (hreg : cmds.find? (fun a => a.name == name) = some cmd) :
    figureOutCommand (name :: rest) cmds =
      some { commandName := name
             commandArgs := rest.takeWhile (fun a => !startsDashDash a)
             options := specOptionRegion (rest.dropWhile (fun a => !startsDashDash a))
             snapshot := cmd.subs } := by
  simp only [figureOutCommand]
  rw [hreg]
  simp only [drop_length_takeWhile, scanOptions_eq_spec]

/-- Witness for C1 at the spec's example: tokens
`["build", "--force", "now", "--verbose"]` with Command `build` registered
yield `commandArgs = []` and options `--force [now]`, `--verbose []` in that
order. -/
theorem figureOutCommand_option_region_witness :
    figureOutCommand ["build", "--force", "now", "--verbose"]
        [{ name := "build", subs := [] }] =
      some { commandName := "build"
             commandArgs := []
             options := [{ option := "--force", arguments := ["now"] },
                         { option := "--verbose", arguments := [] }]
             snapshot := [] } := by
  rw [figureOutCommand_option_region [{ name := "build", subs := [] }] "build"
    ["--force", "now", "--verbose"] { name := "build", subs := [] } (by decide)]
  decide

/-- Invoking a callback never touches the warner counters. -/
theorem applyCB_counters (cb : CB) (s : CLIState) :
    (applyCB cb s).flushCount = s.flushCount ∧ (applyCB cb s).warnCount = s.warnCount := by
  cases cb <;> simp [applyCB]

/-- The Registry-level loop never touches the warner counters. -/
theorem regLoop_counters (s : CLIState) (pending log : List CB) :
    (regLoop s pending log).1.flushCount = s.flushCount ∧
      (regLoop s pending log).1.warnCount = s.warnCount := by
  induction s, pending, log using regLoop.induct with
  | case1 s log => simp [regLoop]
  | case2 s log cb rest ih =>
    rw [regLoop]
    rcases ih with ⟨ih1, ih2⟩
    rcases applyCB_counters cb s with ⟨h1, h2⟩
    exact ⟨ih1.trans h1, ih2.trans h2⟩

/-- The Command-level loop never touches the warner counters. -/
theorem cmdLoop_counters (snapshot : List CB) : ∀ (s : CLIState) (log : List CB),
    (cmdLoop s snapshot log).1.flushCount = s.flushCount ∧
      (cmdLoop s snapshot log).1.warnCount = s.warnCount := by
  induction snapshot with
  | nil => intro s log; simp [cmdLoop]
  | cons cb rest ih =>
    intro s log
    rcases ih (applyCB cb s) (log ++ [cb]) with ⟨ih1, ih2⟩
    rcases applyCB_counters cb s with ⟨h1, h2⟩
    exact ⟨by rw [cmdLoop]; exact ih1.trans h1, by rw [cmdLoop]; exact ih2.trans h2⟩

/-- The Command-level loop invokes exactly the snapshot it was handed, in
order, appended to the log so far. -/
theorem cmdLoop_log (snapshot : List CB) : ∀ (s : CLIState) (log : List CB),
    (cmdLoop s snapshot log).2 = log ++ snapshot := by
  induction snapshot with
  | nil => intro s log; simp [cmdLoop]
  | cons cb rest ih =>
    intro s log
    rw [cmdLoop, ih]
    simp

/-- C5: for the empty token sequence, and for every token sequence whose
first token is not the name of a registered Command, parsing yields no match
and `run()` is a silent no-op: the state is returned unchanged (in
particular no warning is recorded and no flush happens) and no subscriber —
Registry-level or Command-level — is invoked (the invocation log is empty). -/
theorem run_unmatched_silent (argv : List String) (s : CLIState)
    (h : argv.drop 2 = [] ∨ ∃ hd tl, argv.drop 2 = hd :: tl ∧
        s.commands.find? (fun a => a.name == hd) = none) :
    figureOutCommand (argv.drop 2) s.commands = none ∧ run argv s = (s, []) := by
  have hfig : figureOutCommand (argv.drop 2) s.commands = none := by
    rcases h with h | ⟨hd, tl, heq, hfind⟩
    · rw [h]
      rfl
    · rw [heq]
      simp only [figureOutCommand]
      rw [hfind]
  refine ⟨hfig, ?_⟩
  unfold run
  rw [hfig]

/-- Demonstration registry used in concrete dispatch scenarios: one
registered command with a subscriber, one Registry-level subscriber. -/
def cliDemoState : CLIState :=
  { commands := [{ name := "build", subs := [CB.noop] }]
    regSubs := [CB.noop]
    warnCount := 0
    flushCount := 0 }

/-- Witness for C5: the argument vector `["node", "script", "nope"]` has the
unregistered first token `nope`, so parsing fails, no subscriber runs, and
the state — warner counters included — is unchanged. -/
theorem run_unmatched_silent_witness :
    figureOutCommand (["node", "script", "nope"].drop 2) cliDemoState.commands = none ∧
      run ["node", "script", "nope"] cliDemoState = (cliDemoState, []) :=
  run_unmatched_silent ["node", "script", "nope"] cliDemoState
    (Or.inr ⟨"nope", [], rfl, by decide⟩)

/-- C9 counterexample: a `run()` call whose tokenization fails (empty token
sequence) returns before reaching `cliWarner.flush()`: the flush count stays
0 instead of being incremented to 1, so flush is not called exactly once on
every `run()` call. -/
theorem run_flush_counterexample :
    (run ["node", "script"] cliDemoState).1.flushCount = 0 ∧
      (run ["node", "script"] cliDemoState).1.flushCount ≠ cliDemoState.flushCount + 1 := by
  decide

/-- C9 (amended): `run()` calls the Warner's flush exactly once at the end
of calls that resolve a Command; on calls where tokenization fails to
resolve a Command it returns early and flush is not called at all. -/
theorem run_flush_amended (argv : List String) (s : CLIState) :
    (figureOutCommand (argv.drop 2) s.commands = none →
      (run argv s).1.flushCount = s.flushCount) ∧
    (∀ r, figureOutCommand (argv.drop 2) s.commands = some r →
      (run argv s).1.flushCount = s.flushCount + 1) := by
  constructor
  · intro h
    unfold run
    rw [h]
  · intro r h
    unfold run
    rw [h]
    simp only []
    rw [(cmdLoop_counters r.snapshot (regLoop s s.regSubs []).1 (regLoop s s.regSubs []).2).1,
      (regLoop_counters s s.regSubs []).1]

/-- Witness for C9 (amended): the failed call keeps flush count 0; the
matched call on the demonstration registry flushes exactly once. -/
theorem run_flush_amended_witness :
    (run ["node", "script"] cliDemoState).1.flushCount = cliDemoState.flushCount ∧
      (run ["node", "script", "build"] cliDemoState).1.flushCount =
        cliDemoState.flushCount + 1 :=
  ⟨(run_flush_amended ["node", "script"] cliDemoState).1 (by decide),
   (run_flush_amended ["node", "script", "build"] cliDemoState).2
     { commandName := "build", commandArgs := [], options := [], snapshot := [CB.noop] }
     (by decide)⟩

/-- Registry whose single Registry-level subscriber registers a further
Registry-level subscriber when invoked. -/
def liveSubState : CLIState :=
  { commands := [{ name := "build", subs := [] }]
    regSubs := [CB.addRegSub CB.noop]
    warnCount := 0
    flushCount := 0 }

/-- C4 counterexample: dispatching `build` on a registry whose only
Registry-level subscriber registers a new subscriber during the pass invokes
two callbacks — the one present at dispatch start and the one it registered
mid-dispatch.  The mid-dispatch registration changed which callbacks were
invoked in the pass, so `run()` does not snapshot the Registry-level
subscriber list (the loop re-reads the live array). -/
theorem run_snapshot_counterexample :
    (run ["node", "script", "build"] liveSubState).2 = [CB.addRegSub CB.noop, CB.noop] ∧
      liveSubState.regSubs = [CB.addRegSub CB.noop] ∧
      liveSubState.commands = [{ name := "build", subs := [] }] := by
  refine ⟨?_, by decide, by decide⟩
  have hfig : figureOutCommand (["node", "script", "build"].drop 2) liveSubState.commands =
      some { commandName := "build", commandArgs := [], options := [], snapshot := [] } := by
    decide
  unfold run
  rw [hfig]
  simp only []
  rw [cmdLoop_log]
  simp [liveSubState, regLoop, applyCB, regNew]

/-- C4 (amended): `run()` snapshots the matched Command's subscriber list at
parse time (the metadata copy), so the Command-level callbacks invoked in a
pass are exactly that snapshot, whatever the callbacks do to the live lists;
the Registry-level list, however, is read live by the dispatch loop: a
subscriber appended by a Registry-level callback during the pass is invoked
in the same pass (demonstrated by the singleton `addRegSub` subscriber,
whose registered callback is the second invocation). -/
theorem run_snapshot_amended (argv : List String) (s : CLIState) (r : ParseOk)
    (h : figureOutCommand (argv.drop 2) s.commands = some r) :
    (run argv s).2 = (regLoop s s.regSubs []).2 ++ r.snapshot ∧
      (s.regSubs = [CB.addRegSub CB.noop] →
        (run argv s).2 = [CB.addRegSub CB.noop, CB.noop] ++ r.snapshot) := by
  have hmain : (run argv s).2 = (regLoop s s.regSubs []).2 ++ r.snapshot := by
    unfold run
    rw [h]
    simp only []
    rw [cmdLoop_log]
  refine ⟨hmain, ?_⟩
  intro hsubs
  rw [hmain, hsubs]
  simp [regLoop, applyCB, regNew]

/-- Witness for C4 (amended) on the demonstration registry: the invocation
log is the live-extended Registry-level sequence followed by the (empty)
parse-time Command snapshot. -/
theorem run_snapshot_amended_witness :
    (run ["node", "script", "build"] liveSubState).2 = [CB.addRegSub CB.noop, CB.noop] := by
  have h := (run_snapshot_amended ["node", "script", "build"] liveSubState
    { commandName := "build", commandArgs := [], options := [], snapshot := [] }
    (by decide)).2 rfl
  simpa using h

/-- Replace-or-append always leaves the new command in the list. -/
theorem mem_upsertCmd (cmds : List Cmd) (c : Cmd) : c ∈ upsertCmd cmds c := by
  induction cmds with
  | nil => simp [upsertCmd]
  | cons a rest ih =>
    by_cases h : (a.name == c.name) = true
    · simp [upsertCmd, h]
    · simp [upsertCmd, h, ih]

/-- Replace-or-append always leaves the new option in the list. -/
theorem mem_upsertOpt (opts : List OptionNode) (o : OptionNode) : o ∈ upsertOpt opts o := by
  induction opts with
  | nil => simp [upsertOpt]
  | cons a rest ih =>
    by_cases h : (a.name == o.name) = true
    · simp [upsertOpt, h]
    · simp [upsertOpt, h, ih]

/-- C7 counterexample: passing the non-string value `undefined` as the name
to `Registry.command` or `Command.option` raises a `TypeError` instead of
completing: `JSON.stringify(undefined)` is the value `undefined`, and the
subsequent `name.includes(" ")` is then a method call on `undefined`. -/
theorem cli_nonstring_name_counterexample :
    cliCommand [] JSValue.undef = Except.error () ∧
      commandOption [] JSValue.undef = Except.error () :=
  ⟨rfl, rfl⟩

/-- Normalization of a non-string name whose JSON encoding exists: one
warning for the invalid argument (plus one more if the encoding contains a
space), and the resulting name is the (first-space-stripped) encoding. -/
theorem normalizeName_nonstring (arg : JSValue) (j : String)
    (hns : jsTypeof arg ≠ "string") (hj : jsonStringify arg = some j) :
    normalizeName arg =
      Except.ok ((if containsSpace j then removeFirstSpaceStr j else j),
        (if containsSpace j then 2 else 1)) := by
  cases arg with
  | str s => exact absurd rfl hns
  | num n =>
    simp only [normalizeName, hj]
    split <;> rfl
  | bool b =>
    simp only [normalizeName, hj]
    split <;> rfl
  | undef => exact absurd hj (by simp [jsonStringify])
  | jsNull =>
    simp only [normalizeName, hj]
    split <;> rfl
  | object cs =>
    simp only [normalizeName, hj]
    split <;> rfl
  | array es =>
    simp only [normalizeName, hj]
    split <;> rfl
  | func cs => exact absurd hj (by simp [jsonStringify])

/-- C7 (amended): for every non-string name input whose `JSON.stringify`
result is a string (numbers, booleans, `null`, arrays, objects), both
`Registry.command` and `Command.option` complete without raising, emit at
least one warning, and register a node whose name is that stable JSON
encoding of the input (subject to the usual first-space rewrite); inputs
whose encoding is the value `undefined` (`undefined` itself, functions)
instead raise a `TypeError`. -/
theorem cli_nonstring_name_amended (cmds : List Cmd) (opts : List OptionNode)
    (arg : JSValue) (j : String) (hns : jsTypeof arg ≠ "string")
    (hj : jsonStringify arg = some j) :
    (∃ cmds' c w, cliCommand cmds arg = Except.ok (cmds', c, w) ∧ 1 ≤ w ∧
      c.name = (if containsSpace j then removeFirstSpaceStr j else j) ∧ c ∈ cmds') ∧
    (∃ opts' o w, commandOption opts arg = Except.ok (opts', o, w) ∧ 1 ≤ w ∧
      o.name = (if containsSpace j then removeFirstSpaceStr j else j) ∧ o ∈ opts') := by
  have hn := normalizeName_nonstring arg j hns hj
  constructor
  · refine ⟨upsertCmd cmds
        { name := (if containsSpace j then removeFirstSpaceStr j else j), subs := [] },
      { name := (if containsSpace j then removeFirstSpaceStr j else j), subs := [] },
      (if containsSpace j then 2 else 1), ?_, ?_, rfl, mem_upsertCmd cmds _⟩
    · simp only [cliCommand, hn]
    · split <;> omega
  · refine ⟨upsertOpt opts
        { name := (if containsSpace j then removeFirstSpaceStr j else j) },
      { name := (if containsSpace j then removeFirstSpaceStr j else j) },
      (if containsSpace j then 2 else 1), ?_, ?_, rfl, mem_upsertOpt opts _⟩
    · simp only [commandOption, hn]
    · split <;> omega

/-- Witness for C7 (amended) at the non-string input `null`: registration
completes, warns once, and stores the name `null`. -/
theorem cli_nonstring_name_amended_witness :
    (∃ cmds' c w, cliCommand [] JSValue.jsNull = Except.ok (cmds', c, w) ∧ 1 ≤ w ∧
      c.name = (if containsSpace "null" then removeFirstSpaceStr "null" else "null") ∧
      c ∈ cmds') ∧
    (∃ opts' o w, commandOption [] JSValue.jsNull = Except.ok (opts', o, w) ∧ 1 ≤ w ∧
      o.name = (if containsSpace "null" then removeFirstSpaceStr "null" else "null") ∧
      o ∈ opts') :=
  cli_nonstring_name_amended [] [] JSValue.jsNull "null" (by decide) rfl

/-- C8 counterexample: the string name `a b c` contains two spaces;
`name.replace(" ", "")` removes only the first one, so the stored command
name is `ab c`, which still contains a space — the stored name does not have
all spaces stripped. -/
theorem cli_space_strip_counterexample :
    cliCommand [] (JSValue.str "a b c") =
      Except.ok ([{ name := "ab c", subs := [] }], { name := "ab c", subs := [] }, 1) ∧
      containsSpace "ab c" = true := by
  constructor
  · rfl
  · decide

/-- C8 (amended): for every string name containing a space passed to
`Registry.command` or `Command.option`, a warning is issued (exactly one)
and the stored node's name is the input with its first space removed
(JavaScript `replace` with a string pattern replaces only the first
occurrence, so any later spaces survive). -/
theorem cli_space_strip_amended (cmds : List Cmd) (opts : List OptionNode)
    (name : String) (h : containsSpace name = true) :
    cliCommand cmds (JSValue.str name) =
      Except.ok (upsertCmd cmds { name := removeFirstSpaceStr name, subs := [] },
        { name := removeFirstSpaceStr name, subs := [] }, 1) ∧
    commandOption opts (JSValue.str name) =
      Except.ok (upsertOpt opts { name := removeFirstSpaceStr name },
        { name := removeFirstSpaceStr name }, 1) := by
  have hn : normalizeName (JSValue.str name) =
      Except.ok (removeFirstSpaceStr name, 1) := by
    simp only [normalizeName, h]
    rfl
  constructor
  · simp only [cliCommand, hn]
  · simp only [commandOption, hn]

/-- Witness for C8 (amended) at the single-space name `a b`: both
registrations store `ab` with exactly one warning. -/
theorem cli_space_strip_amended_witness :
    cliCommand [] (JSValue.str "a b") =
      Except.ok ([{ name := "ab", subs := [] }], { name := "ab", subs := [] }, 1) ∧
    commandOption [] (JSValue.str "a b") =
      Except.ok ([{ name := "ab" }], { name := "ab" }, 1) :=
  cli_space_strip_amended [] [] "a b" (by decide)
